import Mathlib

/-!
Shallow embedding of the persistent vector store of AICTE-AIStudyBuddy
(`src/core/vectordb.py` and `src/utils/helper.py`), together with proofs
of the spec's claims about it.

Modelling conventions:
* text and file paths are `List Char`; embedding vectors are `List ℚ`
  (numpy float32 arithmetic modelled by exact rationals);
* the filesystem visible to the module is an `FS` record: the readable
  source files, the single persisted vector-store artifact, and the
  per-file embedding-cache artifacts.  A persisted artifact is `missing`,
  `corrupt` (present but unpicklable — the code's `except` branches), or
  `valid`;
* external library calls are parameters: `md5` stands for
  `hashlib.md5(..).hexdigest()`, `provider` for one
  `genai.embed_content` call (`none` = the per-item exception branch);
  `apiKey` says whether `st.secrets` held a key;
* Python exceptions that escape a function are `Except.error`;
  functions that catch everything are total.
-/

abbrev Str := List Char
abbrev Vec := List ℚ
abbrev Provider := Str → Option Vec
abbrev HashFn := Str → Str

/-- A chunk dict as built by `process_pdf` and mutated by the store
(`index` is written by `build_vector_store`, `similarity` by `retrieve`;
both default-absent, modelled by default field values). -/
structure Chunk where
  text : Str
  source : Str
  page : Nat
  headers : List Str
  index : Nat := 0
  similarity : Option ℚ := none
deriving DecidableEq, Repr

/-- One value of the pickled store's `file_map`. -/
structure FileEntry where
  hash : Str
  chunk_indices : List Nat
deriving DecidableEq, Repr

/-- The pickled vector-store record `{"index": .., "chunks": .., "file_map": ..}`;
the FAISS `IndexFlatL2` is modelled by its list of stored vectors
(in insertion order), `None` by `Option.none`. -/
structure StoreData where
  index : Option (List Vec)
  chunks : List Chunk
  fileMap : List (Str × FileEntry)
deriving DecidableEq, Repr

/-- A pickled embedding-cache file `{"embeddings": .., "chunks": ..}`. -/
structure CacheEntry where
  embeddings : List Vec
  chunks : List Chunk
deriving DecidableEq, Repr

/-- State of one on-disk artifact: absent, present-but-unreadable
(`pickle.load` raises), or readable with parsed content. -/
inductive Artifact (α : Type) where
  | missing
  | corrupt
  | valid (a : α)
deriving DecidableEq, Repr

/-- The filesystem as seen by `vectordb.py`: readable files (for hashing),
the store artifact at `VECTOR_STORE_FILE`, and the embedding-cache
directory keyed by path. -/
structure FS where
  files : List (Str × Str)
  store : Artifact StoreData
  cache : List (Str × Artifact CacheEntry)
deriving DecidableEq, Repr

/-- Association-list lookup (models a dict / a directory of files). -/
def lookupA {α : Type} (k : Str) : List (Str × α) → Option α
  | [] => none
  | (k', v) :: rest => if k = k' then some v else lookupA k rest

/-- Association-list update/insert (models writing a file / a dict entry). -/
def setAssoc {α : Type} (k : Str) (v : α) : List (Str × α) → List (Str × α)
  | [] => [(k, v)]
  | (k', v') :: rest => if k = k' then (k, v) :: rest else (k', v') :: setAssoc k v rest

/-- The per-item `try`/`except` of `helper.get_embedding`: the provider's
vector, or `np.zeros(768)` when the `embed_content` call raises. -/
def provEmb (provider : Provider) (t : Str) : Vec :=
  match provider t with
  | some v => v
  | none => List.replicate 768 (0 : ℚ)

/-- `helper.get_embedding`: raises `ValueError` when no API key is
configured; otherwise embeds each text in order, substituting
`np.zeros(768)` when the per-item call raises.
(`src/utils/helper.py` lines 88–109.) -/
def get_embedding (apiKey : Bool) (provider : Provider) (texts : List Str) :
    Except Unit (List Vec) :=
  if apiKey then Except.ok (texts.map (provEmb provider))
  else Except.error ()

/-- `vectordb.get_file_hash`: md5 of the file's bytes, `""` when the file
cannot be read.  (`src/core/vectordb.py` lines 18–33.) -/
def get_file_hash (md5 : HashFn) (files : List (Str × Str)) (p : Str) : Str :=
  match lookupA p files with
  | some content => md5 content
  | none => []

/-- `os.path.basename`: the part after the last `/`. -/
def baseNameOf (p : Str) : Str :=
  (p.reverse.takeWhile (fun c => c ≠ '/')).reverse

/-- `os.path.splitext(..)[0]` on a basename: drop the part from the last
dot on, when there is a dot. -/
def dropExt (s : Str) : Str :=
  if s.contains '.' then ((s.reverse.dropWhile (fun c => c ≠ '.')).drop 1).reverse
  else s

def EMBEDDING_CACHE_DIR : Str := "data/vector_store/embeddings".toList

/-- `vectordb.get_embedding_path`: `""` (here `none`) when the file is
unhashable, else `EMBEDDING_CACHE_DIR/<base>_<hash>.pkl`.
(`src/core/vectordb.py` lines 36–51.) -/
def get_embedding_path (md5 : HashFn) (files : List (Str × Str)) (p : Str) :
    Option Str :=
  let h := get_file_hash md5 files p
  if h = [] then none
  else some (EMBEDDING_CACHE_DIR ++ ('/' :: dropExt (baseNameOf p)) ++ ('_' :: h) ++ ".pkl".toList)

/-- The embedding-cache path of an optional `source_file` argument. -/
def embPathOf (md5 : HashFn) (files : List (Str × Str)) : Option Str → Option Str
  | none => none
  | some p => get_embedding_path md5 files p

/-- The `existing_data` a build starts from: the parsed store when the
artifact is readable, else the defaults
`{"index": None, "chunks": [], "file_map": {}}`. -/
def existingOf (fs : FS) : StoreData :=
  match fs.store with
  | Artifact.valid d => d
  | _ => ⟨none, [], []⟩

/-- The in-place loop `for i, chunk in enumerate(chunks): chunk["index"] =
start_idx + i`. -/
def assignIdx (start : Nat) (cs : List Chunk) : List Chunk :=
  cs.enum.map (fun p => { p.2 with index := start + p.1 })

/-- The cached embeddings a build would reuse for `source_file`: present
only when the derived path exists and unpickles
(`src/core/vectordb.py` lines 82–92). -/
def cachedEmbOf (md5 : HashFn) (fs : FS) (sf : Option Str) : Option (List Vec) :=
  match embPathOf md5 fs.files sf with
  | none => none
  | some cp =>
    match lookupA cp fs.cache with
    | some (Artifact.valid e) => some e.embeddings
    | _ => none

/-- Result of one `build_vector_store` call: the Python return value (or
escaped exception), the filesystem afterwards, and two observation
fields for the spec: whether `get_embedding` was invoked, which
embeddings and which (index-assigned) chunks this call appended. -/
structure BuildOut where
  ret : Except Unit (Option (List Vec))
  fs : FS
  providerCalled : Bool
  usedEmb : List Vec
  addedChunks : List Chunk
deriving Repr

/-- Tail of `build_vector_store` from `if not new_embeddings` on: fail with
`None` when no embeddings, else extend the index, assign chunk indices,
update `file_map` and persist (`src/core/vectordb.py` lines 110–148). -/
def finishBuild (md5 : HashFn) (fs : FS) (existing : StoreData)
    (newEmb : List Vec) (chunks : List Chunk) (sf : Option Str) (pc : Bool) :
    BuildOut :=
  if newEmb = [] then ⟨Except.ok none, fs, pc, [], []⟩
  else
    let idxVecs := existing.index.getD [] ++ newEmb
    let start := existing.chunks.length
    let newChunks := assignIdx start chunks
    let fm :=
      match sf with
      | some p =>
        setAssoc p ⟨get_file_hash md5 fs.files p, List.range' start chunks.length⟩
          existing.fileMap
      | none => existing.fileMap
    ⟨Except.ok (some idxVecs),
     { fs with store := Artifact.valid ⟨some idxVecs, existing.chunks ++ newChunks, fm⟩ },
     pc, newEmb, newChunks⟩

/-- `vectordb.build_vector_store` (`src/core/vectordb.py` lines 54–148):
early `None` on empty chunks; load the existing store (defaults on
missing/corrupt); reuse cached embeddings when nonempty, else call
`get_embedding` (whose `ValueError` escapes uncaught), filter the `None`
entries (there are none) and write the cache; then `finishBuild`. -/
def build_vector_store (apiKey : Bool) (provider : Provider) (md5 : HashFn)
    (fs : FS) (chunks : List Chunk) (source_file : Option Str) : BuildOut :=
  if chunks = [] then ⟨Except.ok none, fs, false, [], []⟩
  else
    let existing := existingOf fs
    let newEmb0 := (cachedEmbOf md5 fs source_file).getD []
    if newEmb0 = [] then
      match get_embedding apiKey provider (chunks.map (·.text)) with
      | Except.error e => ⟨Except.error e, fs, true, [], []⟩
      | Except.ok newEmb =>
        let fs1 :=
          if newEmb = [] then fs
          else
            match embPathOf md5 fs.files source_file with
            | some cp =>
              { fs with cache := setAssoc cp (Artifact.valid ⟨newEmb, chunks⟩) fs.cache }
            | none => fs
        finishBuild md5 fs1 existing newEmb chunks source_file true
    else
      finishBuild md5 fs existing newEmb0 chunks source_file false

/-- `vectordb.load_vector_store` (`src/core/vectordb.py` lines 151–171):
`(None, None)` on a missing or unreadable artifact, a `None` index, or a
chunk-count/`ntotal` mismatch; else the stored pair. -/
def load_vector_store (fs : FS) : Option (List Vec) × Option (List Chunk) :=
  match fs.store with
  | Artifact.valid d =>
    match d.index with
    | some v => if d.chunks.length = v.length then (some v, some d.chunks) else (none, none)
    | none => (none, none)
  | _ => (none, none)

/-- `vectordb.clear_vector_store` (`src/core/vectordb.py` lines 305–311):
remove the artifact when present (readable or not) and report whether a
deletion occurred. -/
def clear_vector_store (fs : FS) : Bool × FS :=
  match fs.store with
  | Artifact.missing => (false, fs)
  | _ => (true, { fs with store := Artifact.missing })

/-- Run a sequence of `build_vector_store` calls; `some` only when every
call returns an index (the Python truthy-success case), collecting per
call the embeddings and index-assigned chunks it appended. -/
def runBuilds (apiKey : Bool) (provider : Provider) (md5 : HashFn) :
    FS → List (List Chunk × Option Str) → Option (FS × List (List Vec × List Chunk))
  | fs, [] => some (fs, [])
  | fs, c :: rest =>
    match (build_vector_store apiKey provider md5 fs c.1 c.2).ret with
    | Except.ok (some _) =>
      match runBuilds apiKey provider md5
          (build_vector_store apiKey provider md5 fs c.1 c.2).fs rest with
      | some (fs2, tr) =>
        some (fs2,
          ((build_vector_store apiKey provider md5 fs c.1 c.2).usedEmb,
           (build_vector_store apiKey provider md5 fs c.1 c.2).addedChunks) :: tr)
      | none => none
    | _ => none

/-- Python `str.replace(pat, repl)`: replace every non-overlapping
occurrence, scanning left to right. -/
def replaceAll (pat repl : Str) (s : Str) : Str :=
  match s with
  | [] => []
  | c :: rest =>
    if h : pat ≠ [] ∧ pat.isPrefixOf (c :: rest) then
      repl ++ replaceAll pat repl ((c :: rest).drop pat.length)
    else
      c :: replaceAll pat repl rest
termination_by s.length
decreasing_by
  · have hp : 0 < pat.length := List.length_pos.mpr h.1
    simp only [List.length_drop, List.length_cons]
    omega
  · simp only [List.length_cons]
    omega

/-- Python `str.split()` (no argument): split on whitespace runs, dropping
empty pieces. -/
def splitWs (s : Str) : List Str :=
  (s.splitOnP (fun c => c.isWhitespace)).filter (fun w => w ≠ [])

/-- The nested `sanitize_text` of `retrieve`:
`" ".join(text.split()).replace(" ,", ",").replace(" .", ".")`. -/
def sanitize_text (t : Str) : Str :=
  replaceAll " .".toList ".".toList
    (replaceAll " ,".toList ",".toList (List.intercalate [' '] (splitWs t)))

/-- The distance→similarity conversion of `retrieve`:
`similarity = 1 / (1 + distance)` (`src/core/vectordb.py` line 226). -/
def similarity_score (d : ℚ) : ℚ := 1 / (1 + d)

/-- Squared L2 distance, the metric of `faiss.IndexFlatL2` (its `D` output). -/
def l2sq (q v : Vec) : ℚ := ((q.zip v).map (fun p => (p.1 - p.2) ^ 2)).sum

/-- Stable insertion by ascending distance (model of the FAISS k-NN heap). -/
def insertHit (x : Nat × ℚ) : List (Nat × ℚ) → List (Nat × ℚ)
  | [] => [x]
  | y :: ys => if x.2 ≤ y.2 then x :: y :: ys else y :: insertHit x ys

/-- Stable sort by ascending distance. -/
def sortHits : List (Nat × ℚ) → List (Nat × ℚ)
  | [] => []
  | x :: xs => insertHit x (sortHits xs)

/-- Model of `index.search(q, k)` on a flat L2 index: the `k` stored
vectors nearest to `q`, as (ordinal, squared-distance) pairs in
ascending-distance order. -/
def searchL2 (vecs : List Vec) (q : Vec) (k : Nat) : List (Nat × ℚ) :=
  (sortHits (vecs.enum.map (fun p => (p.1, l2sq q p.2)))).take k

/-- The hit filter of `retrieve`:
`threshold is None or similarity > threshold`. -/
def keepHit (threshold : Option ℚ) (s : ℚ) : Bool :=
  match threshold with
  | none => true
  | some t => decide (t < s)

/-- The loop body of `retrieve` for one `(idx, distance)` hit: skip an
out-of-range ordinal, convert distance to similarity, and when the hit
passes the threshold emit the chunk with sanitized text and its
similarity attached. -/
def hitResult (chunks : List Chunk) (threshold : Option ℚ) (p : Nat × ℚ) :
    Option Chunk :=
  if h : p.1 < chunks.length then
    if keepHit threshold (similarity_score p.2) then
      some { chunks.get ⟨p.1, h⟩ with
             text := sanitize_text (chunks.get ⟨p.1, h⟩).text,
             similarity := some (similarity_score p.2) }
    else none
  else none

/-- `vectordb.retrieve` (`src/core/vectordb.py` lines 197–235): load the
store (empty result when unavailable or chunk list empty), embed the
query (any exception is caught into an empty result), search the
`min(top_k, len(chunks))` nearest vectors, and keep each in-range hit
that passes the threshold, with sanitized text and its similarity. -/
def retrieve (apiKey : Bool) (provider : Provider) (fs : FS) (query : Str)
    (top_k : Nat) (threshold : Option ℚ) : List Chunk :=
  match load_vector_store fs with
  | (some vecs, some chunks) =>
    if chunks = [] then []
    else
      match get_embedding apiKey provider [query] with
      | Except.error _ => []
      | Except.ok qs =>
        (searchL2 vecs (qs.headD []) (min top_k chunks.length)).filterMap
          (hitResult chunks threshold)
  | _ => []

/-- Python `a.lower()` per character. -/
def lowerStr (s : Str) : Str := s.map Char.toLower

/-- Python `pat in s` for strings: substring containment. -/
def isSubstr (pat : Str) : Str → Bool
  | [] => decide (pat = [])
  | c :: rest => pat.isPrefixOf (c :: rest) || isSubstr pat rest

/-- `vectordb.hybrid_search` (`src/core/vectordb.py` lines 268–281):
semantic search with `top_k*2`, then — when `keyword` is truthy — keep
the results whose lowercased text contains the lowercased keyword, then
truncate to `top_k`. -/
def hybrid_search (apiKey : Bool) (provider : Provider) (fs : FS) (query : Str)
    (keyword : Option Str) (top_k : Nat) : List Chunk :=
  let semantic := retrieve apiKey provider fs query (top_k * 2) none
  let filtered :=
    match keyword with
    | some kw =>
      if kw = [] then semantic
      else semantic.filter (fun r => isSubstr (lowerStr kw) (lowerStr r.text))
    | none => semantic
  filtered.take top_k

/-- Modelled from the spec: hybrid search as the stated composition — run
`retrieve(query, top_k=2*top_k)`, filter by case-insensitive substring
when a keyword is given, truncate to `top_k`. -/
def hybrid_search_spec (apiKey : Bool) (provider : Provider) (fs : FS)
    (query : Str) (keyword : Option Str) (top_k : Nat) : List Chunk :=
  let semantic := retrieve apiKey provider fs query (2 * top_k) none
  let filtered : List Chunk :=
    match keyword with
    | some kw => semantic.filter (fun r => isSubstr (lowerStr kw) (lowerStr r.text))
    | none => semantic
  filtered.take top_k

/-- Model of `os.path.exists` on an artifact slot. -/
def Artifact.present {α : Type} : Artifact α → Bool
  | Artifact.missing => false
  | _ => true

/-! ### Concrete data for witnesses and counterexamples -/

/-- A concrete embedding provider: one-dimensional text-length vectors. -/
def provW : Provider := fun t => some [(t.length : ℚ)]

/-- A concrete stand-in for md5: prefixes the content with `h`. -/
def md5W : HashFn := fun b => 'h' :: b

/-- A concrete chunk over a given text. -/
def chW (s : Str) : Chunk :=
  { text := s, source := "f.pdf:page1".toList, page := 1, headers := [] }

/-- A concrete filesystem: one readable file, no store, no caches. -/
def fsW : FS := ⟨[("f.pdf".toList, "XY".toList)], Artifact.missing, []⟩

/-- A store whose artifact is readable but fails the integrity check:
one vector, zero chunks. -/
def fsBad : FS := ⟨[], Artifact.valid ⟨some [[1]], [], []⟩, []⟩

/-- The embeddings a cache-missing build computes for its chunks. -/
def embsOf (provider : Provider) (chunks : List Chunk) : List Vec :=
  (chunks.map (fun c => c.text)).map (provEmb provider)

/-- The build calls of the C1 witness run. -/
def callsC1 : List (List Chunk × Option Str) :=
  [([chW "ab".toList], none), ([chW "c".toList], none)]

/-- The store the C1 witness run produces. -/
def storeC1 : StoreData :=
  ⟨some [[2], [1]], [chW "ab".toList, { chW "c".toList with index := 1 }], []⟩

/-- The filesystem the C1 witness run ends in. -/
def fs2C1 : FS := ⟨fsW.files, Artifact.valid storeC1, []⟩

/-- The per-call trace of the C1 witness run. -/
def trC1 : List (List Vec × List Chunk) :=
  [([[2]], [chW "ab".toList]), ([[1]], [{ chW "c".toList with index := 1 }])]

/-! ### Association-list lemmas -/

theorem lookupA_setAssoc_self {α : Type} (k : Str) (v : α) (l : List (Str × α)) :
    lookupA k (setAssoc k v l) = some v := by
  induction l with
  | nil => simp [setAssoc, lookupA]
  | cons p rest ih =>
    obtain ⟨k', v'⟩ := p
    by_cases h : k = k'
    · simp [setAssoc, lookupA, h]
    · simp [setAssoc, lookupA, h, ih]

/-! ### Claim theorems -/

/-- C10: calling `build_vector_store` with an empty chunks sequence
returns `None` immediately: no embedding computation happens and the
filesystem (store artifact and embedding caches) is exactly as before. -/
theorem build_empty_chunks_is_noop (apiKey : Bool) (provider : Provider)
    (md5 : HashFn) (fs : FS) (sf : Option Str) :
    build_vector_store apiKey provider md5 fs [] sf =
      ⟨Except.ok none, fs, false, [], []⟩ := by
  rfl

/-- C9: `clear_vector_store` returns `True` exactly when the artifact
exists, a second consecutive call returns `False`, and after a clear
`load_vector_store` returns `(None, None)`. -/
theorem clear_store_destructive (fs : FS) :
    (clear_vector_store fs).1 = fs.store.present ∧
    (clear_vector_store (clear_vector_store fs).2).1 = false ∧
    load_vector_store (clear_vector_store fs).2 = (none, none) := by
  obtain ⟨files, store, cache⟩ := fs
  cases store <;>
    simp [clear_vector_store, load_vector_store, Artifact.present]

/-- C2: `load_vector_store` returns `(None, None)` on a missing artifact,
an unreadable artifact, a pickled `None` index, or a chunk-count that
differs from the index's vector count; it returns the stored pair
exactly when the index is present and the counts agree; and every result
is one of these two shapes (never partially valid, never an exception —
the model is a total function). -/
theorem load_store_integrity_gate (fs : FS) :
    (fs.store = Artifact.missing → load_vector_store fs = (none, none)) ∧
    (fs.store = Artifact.corrupt → load_vector_store fs = (none, none)) ∧
    (∀ d, fs.store = Artifact.valid d → d.index = none →
      load_vector_store fs = (none, none)) ∧
    (∀ d v, fs.store = Artifact.valid d → d.index = some v →
      d.chunks.length ≠ v.length → load_vector_store fs = (none, none)) ∧
    (∀ d v, fs.store = Artifact.valid d → d.index = some v →
      d.chunks.length = v.length →
      load_vector_store fs = (some v, some d.chunks)) ∧
    (load_vector_store fs = (none, none) ∨
      ∃ v cs, load_vector_store fs = (some v, some cs) ∧
        (∃ fm, fs.store = Artifact.valid ⟨some v, cs, fm⟩) ∧
        cs.length = v.length) := by
  obtain ⟨files, store, cache⟩ := fs
  refine ⟨?_, ?_, ?_, ?_, ?_, ?_⟩
  · intro h
    have h' : store = Artifact.missing := h
    subst h'
    rfl
  · intro h
    have h' : store = Artifact.corrupt := h
    subst h'
    rfl
  · intro d h hi
    have h' : store = Artifact.valid d := h
    subst h'
    simp [load_vector_store, hi]
  · intro d v h hi hne
    have h' : store = Artifact.valid d := h
    subst h'
    simp [load_vector_store, hi, hne]
  · intro d v h hi he
    have h' : store = Artifact.valid d := h
    subst h'
    simp [load_vector_store, hi, he]
  · cases store with
    | missing => left; rfl
    | corrupt => left; rfl
    | valid d =>
      obtain ⟨oi, cs, fm⟩ := d
      cases oi with
      | none => left; rfl
      | some v =>
        by_cases he : cs.length = v.length
        · right
          exact ⟨v, cs, by simp [load_vector_store, he], ⟨fm, rfl⟩, he⟩
        · left; simp [load_vector_store, he]

/-- C2 witness: a readable store pairing one vector with zero chunks
fails the integrity gate and loads as `(None, None)`. -/
theorem load_store_integrity_gate_witness :
    fsBad.store = Artifact.valid ⟨some [[1]], [], []⟩ ∧
    load_vector_store fsBad = (none, none) :=
  ⟨rfl, (load_store_integrity_gate fsBad).2.2.2.1 ⟨some [[1]], [], []⟩ [[1]]
    rfl rfl (by decide)⟩

/-- C6: the similarity computed by `retrieve` is `1 / (1 + d)`: strictly
decreasing on nonnegative distances, in the range `(0, 1]`, and equal to
`1` iff the distance is `0`. -/
theorem similarity_score_shape (d1 d2 : ℚ) (h1 : 0 ≤ d1) (h2 : 0 ≤ d2) :
    (d1 < d2 → similarity_score d2 < similarity_score d1) ∧
    0 < similarity_score d1 ∧ similarity_score d1 ≤ 1 ∧
    (similarity_score d1 = 1 ↔ d1 = 0) := by
  have p1 : (0 : ℚ) < 1 + d1 := by linarith
  have p2 : (0 : ℚ) < 1 + d2 := by linarith
  unfold similarity_score
  refine ⟨?_, ?_, ?_, ?_⟩
  · intro hlt
    exact one_div_lt_one_div_of_lt p1 (by linarith)
  · exact div_pos one_pos p1
  · rw [div_le_one p1]; linarith
  · rw [div_eq_one_iff_eq (ne_of_gt p1)]
    constructor
    · intro h; linarith
    · intro h; rw [h]; ring

/-- C6 witness: the shape facts at the concrete distances `0` and `1`. -/
theorem similarity_score_shape_witness :
    ((0 : ℚ) < 1 → similarity_score 1 < similarity_score 0) ∧
    0 < similarity_score 0 ∧ similarity_score 0 ≤ 1 ∧
    (similarity_score 0 = 1 ↔ (0 : ℚ) = 0) :=
  similarity_score_shape 0 1 (le_refl 0) (by norm_num)

/-- C7: with a configured key, `get_embedding` returns one vector per
input text, in input order, each per-item provider failure replaced by
the 768-dimensional zero vector — the output never shrinks and nothing
is raised. -/
theorem get_embedding_never_shrinks (provider : Provider) (texts : List Str) :
    ∃ l, get_embedding true provider texts = Except.ok l ∧
      l.length = texts.length ∧
      ∀ i : Nat, l[i]? = (texts[i]?).map (provEmb provider) := by
  refine ⟨texts.map (provEmb provider), ?_, ?_, ?_⟩
  · simp [get_embedding]
  · simp
  · intro i
    simp [List.getElem?_map]

/-- The chunk a kept hit produces always carries its similarity. -/
theorem filterMap_hitResult_filter (chunks : List Chunk) (t : ℚ) :
    ∀ hits : List (Nat × ℚ),
      hits.filterMap (hitResult chunks (some t)) =
        (hits.filterMap (hitResult chunks none)).filter
          (fun c => decide (t < c.similarity.getD 0)) := by
  intro hits
  induction hits with
  | nil => rfl
  | cons p rest ih =>
    rw [List.filterMap_cons, List.filterMap_cons]
    by_cases h : p.1 < chunks.length
    · simp only [hitResult, dif_pos h, keepHit]
      by_cases hk : t < similarity_score p.2
      · simp [hk, ih, List.filter_cons]
      · simp [hk, ih]
    · simp only [hitResult, dif_neg h]
      exact ih

/-- C5: with a threshold, `retrieve` returns exactly the no-threshold
results whose similarity is strictly greater than the threshold (a hit
with similarity equal to the threshold is dropped by the filter); with a
null threshold every in-range hit of the search yields a result. -/
theorem retrieve_threshold_strict (apiKey : Bool) (provider : Provider)
    (fs : FS) (query : Str) (top_k : Nat) (t : ℚ) :
    (retrieve apiKey provider fs query top_k (some t) =
      (retrieve apiKey provider fs query top_k none).filter
        (fun c => decide (t < c.similarity.getD 0))) ∧
    (∀ (chunks : List Chunk) (p : Nat × ℚ), p.1 < chunks.length →
      (hitResult chunks none p).isSome = true) := by
  constructor
  · unfold retrieve
    rcases hl : load_vector_store fs with ⟨oi, oc⟩
    cases oi with
    | none => cases oc <;> simp
    | some vecs =>
      cases oc with
      | none => simp
      | some chunks =>
        by_cases hc : chunks = []
        · simp [hc]
        · simp only [if_neg hc]
          cases apiKey with
          | false => simp [get_embedding]
          | true =>
            simp only [get_embedding, if_pos]
            exact filterMap_hitResult_filter chunks t _
  · intro chunks p hp
    simp [hitResult, dif_pos hp, keepHit]

/-- C5 witness: the theorem applied at a concrete store and hit. -/
theorem retrieve_threshold_strict_witness :
    (0 : Nat) < 1 ∧
    (hitResult [chW ['a']] none ((0 : Nat), (0 : ℚ))).isSome = true :=
  ⟨by decide,
   (retrieve_threshold_strict true provW fsW [] 5 0).2 [chW ['a']] (0, 0)
     (by decide)⟩

/-- The empty string is a substring of every string (Python `"" in s`). -/
theorem isSubstr_nil (l : Str) : isSubstr [] l = true := by
  cases l <;> simp [isSubstr, List.isPrefixOf]

/-- C8: `hybrid_search` equals the composition stated by the spec —
`retrieve` with `2 * top_k` and no threshold, a case-insensitive
substring filter when a keyword is given, then truncation to `top_k`. -/
theorem hybrid_search_matches_spec (apiKey : Bool) (provider : Provider)
    (fs : FS) (query : Str) (keyword : Option Str) (top_k : Nat) :
    hybrid_search apiKey provider fs query keyword top_k =
      hybrid_search_spec apiKey provider fs query keyword top_k := by
  unfold hybrid_search hybrid_search_spec
  rw [Nat.mul_comm top_k 2]
  cases keyword with
  | none => rfl
  | some kw =>
    by_cases hk : kw = []
    · subst hk
      simp [lowerStr, isSubstr_nil, List.filter_true]
    · simp [hk]

/-! ### Build-path unfolding lemmas -/

theorem embsOf_ne_nil (provider : Provider) (chunks : List Chunk)
    (hne : chunks ≠ []) : embsOf provider chunks ≠ [] := by
  unfold embsOf
  simp only [List.map_map, ne_eq, List.map_eq_nil_iff]
  exact hne

/-- A build with no API key and no usable cache propagates the
`ValueError` without touching the filesystem. -/
theorem build_no_key_no_cache_err (provider : Provider) (md5 : HashFn)
    (fs : FS) (chunks : List Chunk) (sf : Option Str)
    (hne : chunks ≠ []) (hnc : (cachedEmbOf md5 fs sf).getD [] = []) :
    build_vector_store false provider md5 fs chunks sf =
      ⟨Except.error (), fs, true, [], []⟩ := by
  unfold build_vector_store
  simp [hne, hnc, get_embedding]

/-- A build that finds nonempty cached embeddings proceeds with them,
without calling `get_embedding` and without writing the cache. -/
theorem build_cache_hit (apiKey : Bool) (provider : Provider) (md5 : HashFn)
    (fs : FS) (chunks : List Chunk) (sf : Option Str) (e : List Vec)
    (hne : chunks ≠ []) (hc : cachedEmbOf md5 fs sf = some e) (he : e ≠ []) :
    build_vector_store apiKey provider md5 fs chunks sf =
      finishBuild md5 fs (existingOf fs) e chunks sf false := by
  unfold build_vector_store
  simp [hne, hc, he]

/-- A build with a configured key and no usable cache embeds the chunks
and (when a cache path derives) writes the cache before finishing. -/
theorem build_cache_miss (provider : Provider) (md5 : HashFn)
    (fs : FS) (chunks : List Chunk) (sf : Option Str)
    (hne : chunks ≠ []) (hnc : (cachedEmbOf md5 fs sf).getD [] = []) :
    build_vector_store true provider md5 fs chunks sf =
      finishBuild md5
        (match embPathOf md5 fs.files sf with
         | some cp =>
           { fs with
             cache :=
               setAssoc cp (Artifact.valid ⟨embsOf provider chunks, chunks⟩) fs.cache }
         | none => fs)
        (existingOf fs) (embsOf provider chunks) chunks sf true := by
  have hme := embsOf_ne_nil provider chunks hne
  unfold build_vector_store
  simp only [get_embedding, if_pos, if_neg hne, hnc, ite_true]
  simp [embsOf, hme, hne]

/-- Explicit shape of `finishBuild` on nonempty embeddings. -/
theorem finishBuild_spec (md5 : HashFn) (fs : FS) (existing : StoreData)
    (newEmb : List Vec) (chunks : List Chunk) (sf : Option Str) (pc : Bool)
    (h : newEmb ≠ []) :
    ∃ fm,
      finishBuild md5 fs existing newEmb chunks sf pc =
        ⟨Except.ok (some (existing.index.getD [] ++ newEmb)),
         { fs with
           store :=
             Artifact.valid
               ⟨some (existing.index.getD [] ++ newEmb),
                existing.chunks ++ assignIdx existing.chunks.length chunks, fm⟩ },
         pc, newEmb, assignIdx existing.chunks.length chunks⟩ := by
  unfold finishBuild
  rw [if_neg h]
  exact ⟨_, rfl⟩

/-- The cache-miss build when the cache path derives: the computed
embeddings are written to the cache at that path before finishing. -/
theorem build_cache_miss_path (provider : Provider) (md5 : HashFn)
    (fs : FS) (chunks : List Chunk) (p cp : Str)
    (hne : chunks ≠ [])
    (hnc : (cachedEmbOf md5 fs (some p)).getD [] = [])
    (hcp : get_embedding_path md5 fs.files p = some cp) :
    build_vector_store true provider md5 fs chunks (some p) =
      finishBuild md5
        { fs with
          cache :=
            setAssoc cp (Artifact.valid ⟨embsOf provider chunks, chunks⟩) fs.cache }
        (existingOf fs) (embsOf provider chunks) chunks (some p) true := by
  rw [build_cache_miss provider md5 fs chunks (some p) hne hnc]
  have hep : embPathOf md5 fs.files (some p) = some cp := hcp
  rw [hep]

/-- C3 counterexample: with a missing API key (and nothing cached),
`build_vector_store` lets `get_embedding`'s `ValueError` escape rather
than returning `None` — the claim's "returns null and does not raise"
fails at this input. -/
theorem build_missing_key_raises_counterexample :
    (build_vector_store false provW md5W fsW [chW ['a']] none).ret =
      Except.error () ∧
    (build_vector_store false provW md5W fsW [chW ['a']] none).ret ≠
      Except.ok none := by
  have h : (build_vector_store false provW md5W fsW [chW ['a']] none).ret =
      Except.error () := rfl
  refine ⟨h, ?_⟩
  rw [h]
  simp

/-- C3 amended: for every non-empty chunks input with no usable cached
embeddings, a build without credentials raises (propagates the
`ValueError`) and leaves the persisted store and caches unchanged; it
does not return `None` on this path (and the code's "no valid
embeddings" `None` return is unreachable for non-empty chunks, because
the provider substitutes zero vectors instead of shrinking). -/
theorem build_missing_key_raises (provider : Provider) (md5 : HashFn)
    (fs : FS) (chunks : List Chunk) (sf : Option Str)
    (hne : chunks ≠ [])
    (hnc : (cachedEmbOf md5 fs sf).getD [] = []) :
    (build_vector_store false provider md5 fs chunks sf).ret =
      Except.error () ∧
    (build_vector_store false provider md5 fs chunks sf).fs = fs := by
  rw [build_no_key_no_cache_err provider md5 fs chunks sf hne hnc]
  exact ⟨rfl, rfl⟩

/-- C3 witness: the amended theorem at a concrete input. -/
theorem build_missing_key_raises_witness :
    ([chW ['a']] ≠ ([] : List Chunk)) ∧
    (cachedEmbOf md5W fsW none).getD [] = [] ∧
    (build_vector_store false provW md5W fsW [chW ['a']] none).ret =
      Except.error () :=
  ⟨by decide, rfl,
   (build_missing_key_raises provW md5W fsW [chW ['a']] none (by decide) rfl).1⟩

/-- A build on an empty chunk list is the identity on the filesystem. -/
theorem build_nil_eq (apiKey : Bool) (provider : Provider) (md5 : HashFn)
    (fs : FS) (sf : Option Str) :
    build_vector_store apiKey provider md5 fs [] sf =
      ⟨Except.ok none, fs, false, [], []⟩ := rfl

/-- A readable nonempty cache entry behind the derived path makes a build
reuse exactly its embeddings, with no provider call. -/
theorem cachedEmbOf_eq (md5 : HashFn) (fs : FS) (p cp : Str) (ce : CacheEntry)
    (hcp : get_embedding_path md5 fs.files p = some cp)
    (hlk : lookupA cp fs.cache = some (Artifact.valid ce)) :
    cachedEmbOf md5 fs (some p) = some ce.embeddings := by
  unfold cachedEmbOf
  have hep : embPathOf md5 fs.files (some p) = some cp := hcp
  simp only [hep, hlk]

/-- Shape of a build that hits a readable nonempty cache entry. -/
theorem build_after_cached (apiKey : Bool) (provider : Provider) (md5 : HashFn)
    (fs2 : FS) (chunks : List Chunk) (p cp : Str) (ce : CacheEntry)
    (hne : chunks ≠ [])
    (hcp : get_embedding_path md5 fs2.files p = some cp)
    (hlk : lookupA cp fs2.cache = some (Artifact.valid ce))
    (henil : ce.embeddings ≠ []) :
    ∃ fm,
      build_vector_store apiKey provider md5 fs2 chunks (some p) =
        ⟨Except.ok (some ((existingOf fs2).index.getD [] ++ ce.embeddings)),
         { fs2 with
           store :=
             Artifact.valid
               ⟨some ((existingOf fs2).index.getD [] ++ ce.embeddings),
                (existingOf fs2).chunks ++
                  assignIdx (existingOf fs2).chunks.length chunks, fm⟩ },
         false, ce.embeddings,
         assignIdx (existingOf fs2).chunks.length chunks⟩ := by
  have hce : cachedEmbOf md5 fs2 (some p) = some ce.embeddings :=
    cachedEmbOf_eq md5 fs2 p cp ce hcp hlk
  rw [build_cache_hit apiKey provider md5 fs2 chunks (some p) ce.embeddings hne
    hce henil]
  exact finishBuild_spec md5 fs2 (existingOf fs2) ce.embeddings chunks (some p)
    false henil

/-- C4: when the first of two builds over the same `source_file` (whose
bytes are unchanged in between — builds never touch `files`) returns an
index, the second build does not invoke the embedding provider: it
reuses the embeddings found in the cache artifact at the path derived
from the file's basename and content hash (written by the first build
when it was a cache miss), and appends a second copy of the same vector
set together with a freshly index-assigned copy of the same chunks — no
deduplication across build calls. -/
theorem build_second_time_uses_cache (apiKey : Bool) (provider : Provider)
    (md5 : HashFn) (fs : FS) (p : Str) (chunks : List Chunk)
    (o1 o2 : BuildOut)
    (ho1 : o1 = build_vector_store apiKey provider md5 fs chunks (some p))
    (ho2 : o2 = build_vector_store apiKey provider md5 o1.fs chunks (some p))
    (hhash : get_file_hash md5 fs.files p ≠ [])
    (hok : ∃ v, o1.ret = Except.ok (some v)) :
    o2.providerCalled = false ∧
    o2.usedEmb = o1.usedEmb ∧
    (existingOf o2.fs).chunks =
      (existingOf o1.fs).chunks ++
        assignIdx (existingOf o1.fs).chunks.length chunks ∧
    (existingOf o2.fs).index =
      some ((existingOf o1.fs).index.getD [] ++ o1.usedEmb) ∧
    ∃ cp ce, get_embedding_path md5 fs.files p = some cp ∧
      lookupA cp o1.fs.cache = some (Artifact.valid ce) ∧
      ce.embeddings = o1.usedEmb := by
  have hne : chunks ≠ [] := by
    rintro rfl
    obtain ⟨v, hv⟩ := hok
    rw [ho1, build_nil_eq] at hv
    simp at hv
  obtain ⟨cp, hcp⟩ : ∃ cp, get_embedding_path md5 fs.files p = some cp := by
    unfold get_embedding_path
    simp [hhash]
  have hep : embPathOf md5 fs.files (some p) = some cp := hcp
  by_cases hmiss : (cachedEmbOf md5 fs (some p)).getD [] = []
  · -- first build misses the cache (or finds an empty cached list): the
    -- provider runs, the cache is written, the second build reads it back
    cases apiKey with
    | false =>
      exfalso
      obtain ⟨v, hv⟩ := hok
      rw [ho1,
        build_no_key_no_cache_err provider md5 fs chunks (some p) hne hmiss] at hv
      simp at hv
    | true =>
      have hb1 := build_cache_miss_path provider md5 fs chunks p cp hne hmiss hcp
      obtain ⟨fm1, hf1⟩ :=
        finishBuild_spec md5
          { fs with
            cache :=
              setAssoc cp (Artifact.valid ⟨embsOf provider chunks, chunks⟩) fs.cache }
          (existingOf fs) (embsOf provider chunks) chunks (some p) true
          (embsOf_ne_nil provider chunks hne)
      have hfiles : o1.fs.files = fs.files := by rw [ho1, hb1, hf1]
      have hcache : o1.fs.cache =
          setAssoc cp (Artifact.valid ⟨embsOf provider chunks, chunks⟩) fs.cache := by
        rw [ho1, hb1, hf1]
      have huse : o1.usedEmb = embsOf provider chunks := by rw [ho1, hb1, hf1]
      have hceemb : (⟨embsOf provider chunks, chunks⟩ : CacheEntry).embeddings =
          o1.usedEmb := by rw [huse]
      have hlk2 : lookupA cp o1.fs.cache =
          some (Artifact.valid ⟨embsOf provider chunks, chunks⟩) := by
        rw [hcache]
        exact lookupA_setAssoc_self cp _ fs.cache
      have henil : (⟨embsOf provider chunks, chunks⟩ : CacheEntry).embeddings ≠ [] :=
        embsOf_ne_nil provider chunks hne
      have hcp2 : get_embedding_path md5 o1.fs.files p = some cp := by
        rw [hfiles]
        exact hcp
      obtain ⟨fm2, hb2⟩ :=
        build_after_cached true provider md5 o1.fs chunks p cp
          ⟨embsOf provider chunks, chunks⟩ hne hcp2 hlk2 henil
      refine ⟨?_, ?_, ?_, ?_, cp, ⟨embsOf provider chunks, chunks⟩, hcp, hlk2, hceemb⟩
      · rw [ho2, hb2]
      · rw [ho2, hb2]
        exact hceemb
      · rw [ho2, hb2]
        rfl
      · rw [ho2, hb2, ← hceemb]
        rfl
  · -- first build already hits a nonempty cache entry; the second build
    -- hits the very same entry
    obtain ⟨e, hce, henil0⟩ :
        ∃ e, cachedEmbOf md5 fs (some p) = some e ∧ e ≠ [] := by
      rcases hc : cachedEmbOf md5 fs (some p) with _ | e
      · rw [hc] at hmiss
        simp at hmiss
      · rw [hc] at hmiss
        simp at hmiss
        exact ⟨e, rfl, hmiss⟩
    obtain ⟨ce, hlk, hceemb0⟩ :
        ∃ ce, lookupA cp fs.cache = some (Artifact.valid ce) ∧
          ce.embeddings = e := by
      have hce' := hce
      unfold cachedEmbOf at hce'
      simp only [hep] at hce'
      rcases hl : lookupA cp fs.cache with _ | a
      · rw [hl] at hce'
        simp at hce'
      · rcases a with _ | _ | ce0
        · rw [hl] at hce'
          simp at hce'
        · rw [hl] at hce'
          simp at hce'
        · rw [hl] at hce'
          simp at hce'
          exact ⟨ce0, rfl, hce'⟩
    have hb1 := build_cache_hit apiKey provider md5 fs chunks (some p) e hne hce
      henil0
    obtain ⟨fm1, hf1⟩ :=
      finishBuild_spec md5 fs (existingOf fs) e chunks (some p) false henil0
    have hfiles : o1.fs.files = fs.files := by rw [ho1, hb1, hf1]
    have hcache : o1.fs.cache = fs.cache := by rw [ho1, hb1, hf1]
    have huse : o1.usedEmb = e := by rw [ho1, hb1, hf1]
    have hceemb : ce.embeddings = o1.usedEmb := by rw [huse, hceemb0]
    have hlk2 : lookupA cp o1.fs.cache = some (Artifact.valid ce) := by
      rw [hcache]
      exact hlk
    have henil : ce.embeddings ≠ [] := by
      rw [hceemb0]
      exact henil0
    have hcp2 : get_embedding_path md5 o1.fs.files p = some cp := by
      rw [hfiles]
      exact hcp
    obtain ⟨fm2, hb2⟩ :=
      build_after_cached apiKey provider md5 o1.fs chunks p cp ce hne hcp2 hlk2
        henil
    refine ⟨?_, ?_, ?_, ?_, cp, ce, hcp, hlk2, hceemb⟩
    · rw [ho2, hb2]
    · rw [ho2, hb2]
      exact hceemb
    · rw [ho2, hb2]
      rfl
    · rw [ho2, hb2, ← hceemb]
      rfl

/-- C4 witness: the theorem at a concrete readable file, with the first
build's success and hash hypothesis discharged concretely. -/
theorem build_second_time_uses_cache_witness :
    get_file_hash md5W fsW.files "f.pdf".toList ≠ [] ∧
    (build_vector_store true provW md5W fsW [chW "ab".toList]
        (some "f.pdf".toList)).ret = Except.ok (some [[2]]) ∧
    (build_vector_store true provW md5W
        (build_vector_store true provW md5W fsW [chW "ab".toList]
          (some "f.pdf".toList)).fs
        [chW "ab".toList] (some "f.pdf".toList)).providerCalled = false :=
  ⟨by decide, rfl,
   (build_second_time_uses_cache true provW md5W fsW "f.pdf".toList
      [chW "ab".toList] _ _ rfl rfl (by decide) ⟨[[2]], rfl⟩).1⟩

/-- The cache-miss build when no cache path derives (no `source_file`, or
an unhashable file): nothing is written to the cache. -/
theorem build_cache_miss_nopath (provider : Provider) (md5 : HashFn)
    (fs : FS) (chunks : List Chunk) (sf : Option Str)
    (hne : chunks ≠ [])
    (hnc : (cachedEmbOf md5 fs sf).getD [] = [])
    (hp : embPathOf md5 fs.files sf = none) :
    build_vector_store true provider md5 fs chunks sf =
      finishBuild md5 fs (existingOf fs) (embsOf provider chunks) chunks sf
        true := by
  rw [build_cache_miss provider md5 fs chunks sf hne hnc, hp]

/-- The cache-miss build when a cache path does derive, stated for an
arbitrary `source_file` argument. -/
theorem build_cache_miss_somepath (provider : Provider) (md5 : HashFn)
    (fs : FS) (chunks : List Chunk) (sf : Option Str) (cp : Str)
    (hne : chunks ≠ [])
    (hnc : (cachedEmbOf md5 fs sf).getD [] = [])
    (hp : embPathOf md5 fs.files sf = some cp) :
    build_vector_store true provider md5 fs chunks sf =
      finishBuild md5
        { fs with
          cache :=
            setAssoc cp (Artifact.valid ⟨embsOf provider chunks, chunks⟩) fs.cache }
        (existingOf fs) (embsOf provider chunks) chunks sf true := by
  rw [build_cache_miss provider md5 fs chunks sf hne hnc, hp]

/-- Any build that returns an index appended its `usedEmb` to the stored
vectors and its index-assigned `addedChunks` to the stored chunks. -/
theorem build_success_store (apiKey : Bool) (provider : Provider)
    (md5 : HashFn) (fs : FS) (chunks : List Chunk) (sf : Option Str)
    (v : List Vec)
    (hv : (build_vector_store apiKey provider md5 fs chunks sf).ret =
      Except.ok (some v)) :
    (existingOf (build_vector_store apiKey provider md5 fs chunks sf).fs).chunks =
      (existingOf fs).chunks ++
        (build_vector_store apiKey provider md5 fs chunks sf).addedChunks ∧
    (existingOf (build_vector_store apiKey provider md5 fs chunks sf).fs).index.getD [] =
      (existingOf fs).index.getD [] ++
        (build_vector_store apiKey provider md5 fs chunks sf).usedEmb ∧
    (build_vector_store apiKey provider md5 fs chunks sf).addedChunks =
      assignIdx (existingOf fs).chunks.length chunks := by
  by_cases hne : chunks = []
  · subst hne
    rw [build_nil_eq] at hv
    simp at hv
  · by_cases hmiss : (cachedEmbOf md5 fs sf).getD [] = []
    · cases apiKey with
      | false =>
        rw [build_no_key_no_cache_err provider md5 fs chunks sf hne hmiss] at hv
        simp at hv
      | true =>
        have hemb := embsOf_ne_nil provider chunks hne
        rcases hpath : embPathOf md5 fs.files sf with _ | cp
        · have hb := build_cache_miss_nopath provider md5 fs chunks sf hne hmiss
            hpath
          obtain ⟨fm, hf⟩ := finishBuild_spec md5 fs (existingOf fs)
            (embsOf provider chunks) chunks sf true hemb
          rw [hb, hf]
          exact ⟨rfl, rfl, rfl⟩
        · have hb := build_cache_miss_somepath provider md5 fs chunks sf cp hne
            hmiss hpath
          obtain ⟨fm, hf⟩ := finishBuild_spec md5
            { fs with
              cache :=
                setAssoc cp (Artifact.valid ⟨embsOf provider chunks, chunks⟩)
                  fs.cache }
            (existingOf fs) (embsOf provider chunks) chunks sf true hemb
          rw [hb, hf]
          exact ⟨rfl, rfl, rfl⟩
    · obtain ⟨e, hce, henil⟩ :
          ∃ e, cachedEmbOf md5 fs sf = some e ∧ e ≠ [] := by
        rcases hc : cachedEmbOf md5 fs sf with _ | e
        · rw [hc] at hmiss
          simp at hmiss
        · rw [hc] at hmiss
          simp at hmiss
          exact ⟨e, rfl, hmiss⟩
      have hb := build_cache_hit apiKey provider md5 fs chunks sf e hne hce henil
      obtain ⟨fm, hf⟩ := finishBuild_spec md5 fs (existingOf fs) e chunks sf
        false henil
      rw [hb, hf]
      exact ⟨rfl, rfl, rfl⟩

theorem assignIdx_length (start : Nat) (cs : List Chunk) :
    (assignIdx start cs).length = cs.length := by
  simp [assignIdx]

theorem assignIdx_get_index (start : Nat) (cs : List Chunk) (i : Nat)
    (h : i < (assignIdx start cs).length) :
    ((assignIdx start cs).get ⟨i, h⟩).index = start + i := by
  simp [assignIdx, List.getElem_map, List.getElem_enum]

/-- Appending a block whose `index` fields continue from the current
length preserves the "`index` = position" property. -/
theorem chunks_index_append (old nw : List Chunk)
    (hold : ∀ i (h : i < old.length), (old.get ⟨i, h⟩).index = i)
    (hnew : ∀ i (h : i < nw.length), (nw.get ⟨i, h⟩).index = old.length + i) :
    ∀ i (h : i < (old ++ nw).length), ((old ++ nw).get ⟨i, h⟩).index = i := by
  intro i h
  rw [List.get_eq_getElem]
  by_cases hi : i < old.length
  · rw [List.getElem_append_left hi]
    have := hold i hi
    rwa [List.get_eq_getElem] at this
  · push_neg at hi
    rw [List.getElem_append_right hi]
    have hlt : i - old.length < nw.length := by
      rw [List.length_append] at h
      omega
    have := hnew (i - old.length) hlt
    rw [List.get_eq_getElem] at this
    rw [this]
    omega

/-- Transport of the "`index` = position" property along a list equality. -/
theorem index_prop_congr (l l' : List Chunk) (h : l = l')
    (hp : ∀ i (hh : i < l'.length), (l'.get ⟨i, hh⟩).index = i) :
    ∀ i (hh : i < l.length), (l.get ⟨i, hh⟩).index = i := by
  subst h
  exact hp

/-- Running a sequence of builds appends, per successful call, its trace
chunks and vectors, and preserves "`index` = position". -/
theorem runBuilds_spec (apiKey : Bool) (provider : Provider) (md5 : HashFn) :
    ∀ (calls : List (List Chunk × Option Str)) (fs fs2 : FS)
      (tr : List (List Vec × List Chunk)),
      runBuilds apiKey provider md5 fs calls = some (fs2, tr) →
      ((existingOf fs2).chunks =
        (existingOf fs).chunks ++ (tr.map Prod.snd).flatten) ∧
      ((existingOf fs2).index.getD [] =
        (existingOf fs).index.getD [] ++ (tr.map Prod.fst).flatten) ∧
      ((∀ i (h : i < (existingOf fs).chunks.length),
          ((existingOf fs).chunks.get ⟨i, h⟩).index = i) →
        ∀ i (h : i < (existingOf fs2).chunks.length),
          ((existingOf fs2).chunks.get ⟨i, h⟩).index = i) := by
  intro calls
  induction calls with
  | nil =>
    intro fs fs2 tr hrun
    unfold runBuilds at hrun
    simp only [Option.some.injEq, Prod.mk.injEq] at hrun
    obtain ⟨h1, h2⟩ := hrun
    subst h1
    subst h2
    simp
  | cons c rest ih =>
    intro fs fs2 tr hrun
    unfold runBuilds at hrun
    rcases hret : (build_vector_store apiKey provider md5 fs c.1 c.2).ret
      with u | ov
    · rw [hret] at hrun
      simp at hrun
    · cases ov with
      | none =>
        rw [hret] at hrun
        simp at hrun
      | some v =>
        rw [hret] at hrun
        rcases hrec : runBuilds apiKey provider md5
            (build_vector_store apiKey provider md5 fs c.1 c.2).fs rest
          with _ | pr
        · rw [hrec] at hrun
          simp at hrun
        · obtain ⟨fs2', tr'⟩ := pr
          rw [hrec] at hrun
          simp only [Option.some.injEq, Prod.mk.injEq] at hrun
          obtain ⟨h1, h2⟩ := hrun
          subst h1
          subst h2
          obtain ⟨S1, S2, S3⟩ := build_success_store apiKey provider md5 fs c.1
            c.2 v hret
          obtain ⟨I1, I2, I3⟩ := ih _ _ _ hrec
          refine ⟨?_, ?_, ?_⟩
          · rw [I1, S1, List.map_cons, List.flatten_cons, List.append_assoc]
          · rw [I2, S2, List.map_cons, List.flatten_cons, List.append_assoc]
          · intro hbase
            apply I3
            apply index_prop_congr _ _ (by rw [S1, S3])
            exact chunks_index_append (existingOf fs).chunks
              (assignIdx (existingOf fs).chunks.length c.1) hbase
              (fun i h => assignIdx_get_index (existingOf fs).chunks.length c.1 i h)

/-- Zipping the flattened chunk blocks with the flattened vector blocks
equals flattening the per-block zips, when blocks pair up in length. -/
theorem zip_flatten_tr :
    ∀ tr : List (List Vec × List Chunk),
      (∀ t ∈ tr, (Prod.fst t).length = (Prod.snd t).length) →
      ((tr.map Prod.snd).flatten).zip ((tr.map Prod.fst).flatten) =
        (tr.map (fun t => t.2.zip t.1)).flatten := by
  intro tr
  induction tr with
  | nil => intro _; rfl
  | cons t rest ih =>
    intro hlen
    simp only [List.map_cons, List.flatten_cons]
    rw [List.zip_append (hlen t (by simp)).symm]
    rw [ih (fun t' ht' => hlen t' (by simp [ht']))]

/-- C1: for every sequence of successful builds starting from an empty
store, the persisted chunk sequence satisfies `chunks[i].index = i` at
every position, and — when each build's embeddings pair up in number
with its chunks — the vector at ordinal `i` of the index is exactly the
embedding paired with `chunks[i]` at its insertion. -/
theorem build_sequence_positional (apiKey : Bool) (provider : Provider)
    (md5 : HashFn) (calls : List (List Chunk × Option Str)) (fs fs2 : FS)
    (tr : List (List Vec × List Chunk))
    (h0 : fs.store = Artifact.missing)
    (hrun : runBuilds apiKey provider md5 fs calls = some (fs2, tr))
    (hlen : ∀ t ∈ tr, (Prod.fst t).length = (Prod.snd t).length) :
    (∀ i (h : i < (existingOf fs2).chunks.length),
      ((existingOf fs2).chunks.get ⟨i, h⟩).index = i) ∧
    (existingOf fs2).chunks.zip ((existingOf fs2).index.getD []) =
      (tr.map (fun t => t.2.zip t.1)).flatten := by
  obtain ⟨S1, S2, S3⟩ := runBuilds_spec apiKey provider md5 calls fs fs2 tr hrun
  have hbase : existingOf fs = ⟨none, [], []⟩ := by
    unfold existingOf
    rw [h0]
  have S1' : (existingOf fs2).chunks = (tr.map Prod.snd).flatten := by
    rw [S1, hbase]
    rfl
  have S2' : (existingOf fs2).index.getD [] = (tr.map Prod.fst).flatten := by
    rw [S2, hbase]
    rfl
  constructor
  · apply S3
    intro i h
    exact absurd h (by rw [hbase]; simp)
  · rw [S1', S2']
    exact zip_flatten_tr tr hlen

/-- C1 witness: a concrete two-build run from the empty store, with the
positional pairing evaluated. -/
theorem build_sequence_positional_witness :
    fsW.store = Artifact.missing ∧
    runBuilds true provW md5W fsW callsC1 = some (fs2C1, trC1) ∧
    (existingOf fs2C1).chunks.zip ((existingOf fs2C1).index.getD []) =
      [(chW "ab".toList, [2]), ({ chW "c".toList with index := 1 }, [1])] := by
  have hrun : runBuilds true provW md5W fsW callsC1 = some (fs2C1, trC1) := by
    decide
  refine ⟨rfl, hrun, ?_⟩
  have h := build_sequence_positional true provW md5W callsC1 fsW fs2C1 trC1
    rfl hrun (by decide)
  exact h.2.trans (by decide)
